import Mathlib

/-!
Verification of the viswaternet drawing layer (src/viswaternet/drawing/base.py)
and the binning/scaling core described by the specification.

Numeric data is embedded as rationals. Each definition mirrors one piece of
the Python source; definitions whose source is not under src/ (they are only
called from there) are marked as modelled from the spec.
-/

namespace Visnet

/-- Minimum of a list of rationals, mirroring np.min on a nonempty array
(0 on the empty list, which the source never reaches). -/
def listMin : List ℚ → ℚ
  | [] => 0
  | a :: l => l.foldl min a

/-- Maximum of a list of rationals, mirroring np.max on a nonempty array. -/
def listMax : List ℚ → ℚ
  | [] => 0
  | a :: l => l.foldl max a

theorem foldl_min_le_init (l : List ℚ) (a : ℚ) : l.foldl min a ≤ a := by
  induction l generalizing a with
  | nil => exact le_refl a
  | cons b t ih =>
    calc t.foldl min (min a b) ≤ min a b := ih (min a b)
    _ ≤ a := min_le_left a b

theorem foldl_min_le_mem {l : List ℚ} {v : ℚ} (a : ℚ) (hv : v ∈ l) :
    l.foldl min a ≤ v := by
  induction l generalizing a with
  | nil => cases hv
  | cons b t ih =>
    rcases List.mem_cons.mp hv with h | h
    · subst h
      calc t.foldl min (min a v) ≤ min a v := foldl_min_le_init t (min a v)
      _ ≤ v := min_le_right a v
    · exact ih (min a b) h

theorem foldl_min_mem (l : List ℚ) (a : ℚ) : l.foldl min a = a ∨ l.foldl min a ∈ l := by
  induction l generalizing a with
  | nil => exact Or.inl rfl
  | cons b t ih =>
    simp only [List.foldl_cons]
    rcases ih (min a b) with h | h
    · rcases min_cases a b with ⟨hm, _⟩ | ⟨hm, _⟩
      · exact Or.inl (by rw [h, hm])
      · exact Or.inr (by rw [h, hm]; exact List.mem_cons_self b t)
    · exact Or.inr (List.mem_cons_of_mem b h)

theorem init_le_foldl_max (l : List ℚ) (a : ℚ) : a ≤ l.foldl max a := by
  induction l generalizing a with
  | nil => exact le_refl a
  | cons b t ih =>
    calc a ≤ max a b := le_max_left a b
    _ ≤ t.foldl max (max a b) := ih (max a b)

theorem mem_le_foldl_max {l : List ℚ} {v : ℚ} (a : ℚ) (hv : v ∈ l) :
    v ≤ l.foldl max a := by
  induction l generalizing a with
  | nil => cases hv
  | cons b t ih =>
    rcases List.mem_cons.mp hv with h | h
    · subst h
      calc v ≤ max a v := le_max_right a v
      _ ≤ t.foldl max (max a v) := init_le_foldl_max t (max a v)
    · exact ih (max a b) h

theorem foldl_max_mem (l : List ℚ) (a : ℚ) : l.foldl max a = a ∨ l.foldl max a ∈ l := by
  induction l generalizing a with
  | nil => exact Or.inl rfl
  | cons b t ih =>
    simp only [List.foldl_cons]
    rcases ih (max a b) with h | h
    · rcases max_cases a b with ⟨hm, _⟩ | ⟨hm, _⟩
      · exact Or.inl (by rw [h, hm])
      · exact Or.inr (by rw [h, hm]; exact List.mem_cons_self b t)
    · exact Or.inr (List.mem_cons_of_mem b h)

theorem listMin_le_of_mem {l : List ℚ} {v : ℚ} (hv : v ∈ l) : listMin l ≤ v := by
  cases l with
  | nil => cases hv
  | cons a t =>
    rcases List.mem_cons.mp hv with h | h
    · subst h; exact foldl_min_le_init t v
    · exact foldl_min_le_mem a h

theorem le_listMax_of_mem {l : List ℚ} {v : ℚ} (hv : v ∈ l) : v ≤ listMax l := by
  cases l with
  | nil => cases hv
  | cons a t =>
    rcases List.mem_cons.mp hv with h | h
    · subst h; exact init_le_foldl_max t v
    · exact mem_le_foldl_max a h

theorem listMin_mem {l : List ℚ} (h : l ≠ []) : listMin l ∈ l := by
  cases l with
  | nil => exact absurd rfl h
  | cons a t =>
    rcases foldl_min_mem t a with h1 | h1
    · simp [listMin, h1]
    · exact List.mem_cons_of_mem a (by simpa [listMin] using h1)

theorem listMax_mem {l : List ℚ} (h : l ≠ []) : listMax l ∈ l := by
  cases l with
  | nil => exact absurd rfl h
  | cons a t =>
    rcases foldl_max_mem t a with h1 | h1
    · simp [listMax, h1]
    · exact List.mem_cons_of_mem a (by simpa [listMax] using h1)

theorem listMin_le_listMax {l : List ℚ} (h : l ≠ []) : listMin l ≤ listMax l :=
  le_trans (listMin_le_of_mem (listMax_mem h)) (le_refl _)

/-! ## Color-scale selection in draw_nodes and draw_links -/

/-- Error kinds named by the specification (section 7). The drawing code in
base.py never raises any of them; the constructors exist so that claims about
failure behavior are statable against the embedding. -/
inductive CoreError
  | emptySeries
  | invalidIntervalCount
  | lengthMismatch
  | nonFiniteValue
  | sizeCountMismatch
  | invalidRange
deriving DecidableEq

/-- Outcome of one call to draw_nodes or draw_links, as far as the color
scale is concerned: either elements were drawn with data and the given
vmin/vmax arguments were passed to the renderer (none meaning the argument
was omitted), or elements were drawn with no data attached, or the call
failed. -/
inductive DrawResult
  | drawnWithData (vmin vmax : Option ℚ)
  | drawnNoData
  | failed (e : CoreError)
deriving DecidableEq

/-- The epsilon below which a minimum value is treated as a meaningful
negative: -1e-5 in base.py line 76. -/
def negEps : ℚ := -(1 / 100000)

/-- Color-scale selection of draw_nodes (base.py lines 62-126): with an empty
or absent parameter_results the elements are drawn with no data; otherwise,
when the observed minimum is below -1e-5 and both vmin and vmax are None, the
renderer receives vmax = np.max(parameter_results) and
vmin = -np.max(parameter_results); in every other case the callers vmin and
vmax are passed through unchanged. The marker-size handling of lines 65-72
delegates to normalize_parameter and is modelled separately. -/
def draw_nodes (parameter_results : List ℚ) (vmin vmax : Option ℚ) : DrawResult :=
  if parameter_results = [] then
    DrawResult.drawnNoData
  else if listMin parameter_results < negEps then
    if vmin = none ∧ vmax = none then
      DrawResult.drawnWithData (some (-(listMax parameter_results)))
        (some (listMax parameter_results))
    else
      DrawResult.drawnWithData vmin vmax
  else
    if vmin = none ∧ vmax = none then
      DrawResult.drawnWithData none none
    else
      DrawResult.drawnWithData vmin vmax

/-- Color-scale selection of draw_links (base.py lines 168-238), identical in
structure to draw_nodes: edge_vmax = np.max(parameter_results) and
edge_vmin = -np.max(parameter_results) when the minimum is below -1e-5 and
both endpoints are None. -/
def draw_links (parameter_results : List ℚ) (vmin vmax : Option ℚ) : DrawResult :=
  if parameter_results = [] then
    DrawResult.drawnNoData
  else if listMin parameter_results < negEps then
    if vmin = none ∧ vmax = none then
      DrawResult.drawnWithData (some (-(listMax parameter_results)))
        (some (listMax parameter_results))
    else
      DrawResult.drawnWithData vmin vmax
  else
    if vmin = none ∧ vmax = none then
      DrawResult.drawnWithData none none
    else
      DrawResult.drawnWithData vmin vmax

/-- Modelled from the spec: when an endpoint is omitted (None), the external
renderer defaults it to the observed minimum respectively maximum of the data
("domain defaults to the observed [min, max]"); this resolves the endpoints
actually passed into the effective color-scale domain. -/
def resolveDomain (values : List ℚ) (vmin vmax : Option ℚ) : ℚ × ℚ :=
  (vmin.getD (listMin values), vmax.getD (listMax values))

/-- C1, counterexample: on values [-5, 1] with no explicit endpoints the code
passes the domain [-np.max(values), np.max(values)] = [-1, 1], not the
symmetric-in-absolute-value domain [-5, 5] the claim requires; and when only
one endpoint is supplied (vmin = -10, vmax omitted) on [-2, 1, 5] the code
passes the endpoints through unchanged instead of forcing [-5, 5]. -/
theorem C1_counterexample :
    draw_nodes [-5, 1] none none = DrawResult.drawnWithData (some (-1)) (some 1) ∧
    DrawResult.drawnWithData (some (-1)) (some 1) ≠
      DrawResult.drawnWithData (some (-5)) (some (5 : ℚ)) ∧
    draw_nodes [-2, 1, 5] (some (-10)) none =
      DrawResult.drawnWithData (some (-10)) none := by
  refine ⟨?_, ?_, ?_⟩ <;>
    norm_num [draw_nodes, listMin, listMax, negEps, min_def, max_def] <;> simp

/-- C1 (amended): for every non-empty value series, when BOTH color-scale
endpoints are omitted and the observed minimum is below -1e-5, draw_nodes and
draw_links pass the symmetric domain [-max(values), +max(values)] built from
the observed maximum (not the maximum absolute value); when the minimum is
not below -1e-5 and both endpoints are omitted, no endpoints are passed and
the effective domain defaults to the observed [min, max]; when at least one
endpoint is supplied, the caller endpoints are passed through unchanged. -/
theorem C1_sign_aware_domain (values : List ℚ) (h : values ≠ []) :
    (listMin values < negEps →
      draw_nodes values none none =
        DrawResult.drawnWithData (some (-(listMax values))) (some (listMax values)) ∧
      draw_links values none none =
        DrawResult.drawnWithData (some (-(listMax values))) (some (listMax values))) ∧
    (¬ listMin values < negEps →
      draw_nodes values none none = DrawResult.drawnWithData none none ∧
      draw_links values none none = DrawResult.drawnWithData none none ∧
      resolveDomain values none none = (listMin values, listMax values)) ∧
    (∀ vmin vmax : Option ℚ, ¬ (vmin = none ∧ vmax = none) →
      draw_nodes values vmin vmax = DrawResult.drawnWithData vmin vmax ∧
      draw_links values vmin vmax = DrawResult.drawnWithData vmin vmax) := by
  refine ⟨?_, ?_, ?_⟩
  · intro hneg
    constructor <;> simp [draw_nodes, draw_links, h, hneg]
  · intro hpos
    refine ⟨?_, ?_, rfl⟩ <;> simp [draw_nodes, draw_links, h, hpos]
  · intro vmin vmax hsome
    constructor <;> by_cases hneg : listMin values < negEps <;>
      simp [draw_nodes, draw_links, h, hneg, hsome]

/-- C1, witness: the amended theorem applied at the concrete series [-5, 1],
whose minimum -5 is below -1e-5. -/
theorem C1_sign_aware_domain_witness :
    draw_nodes [-5, 1] none none =
      DrawResult.drawnWithData (some (-(listMax [-5, 1]))) (some (listMax [-5, 1])) :=
  ((C1_sign_aware_domain [-5, 1] (by simp)).1
    (by norm_num [listMin, negEps, min_def])).1

/-- C3, counterexample: draw_nodes called with an empty value series neither
raises EmptySeries nor fails at all; the empty series is treated as absent
and the elements are drawn without data (base.py lines 74 and 121-126). -/
theorem C3_counterexample :
    draw_nodes [] none none = DrawResult.drawnNoData ∧
    draw_nodes [] none none ≠ DrawResult.failed CoreError.emptySeries := by
  exact ⟨rfl, by simp [draw_nodes]⟩

/-- C3 (amended): the drawing layer performs no eager empty-series
validation: for every choice of endpoints, draw_nodes and draw_links called
with an empty value series draw the elements without any data attached and
never return a failure of any kind. -/
theorem C3_empty_series_draws_without_data (vmin vmax : Option ℚ) :
    draw_nodes [] vmin vmax = DrawResult.drawnNoData ∧
    draw_links [] vmin vmax = DrawResult.drawnNoData ∧
    (∀ e : CoreError, draw_nodes [] vmin vmax ≠ DrawResult.failed e) ∧
    (∀ e : CoreError, draw_links [] vmin vmax ≠ DrawResult.failed e) := by
  refine ⟨rfl, rfl, ?_, ?_⟩ <;> intro e <;> simp [draw_nodes, draw_links]

/-- C8: the color-scale decision is a pure function of the observed minimum,
the observed maximum and the caller-supplied endpoints: two non-empty series
agreeing on min and max produce identical renderer domains in draw_nodes and
draw_links for any endpoints. -/
theorem C8_domain_pure (v1 v2 : List ℚ) (vmin vmax : Option ℚ)
    (h1 : v1 ≠ []) (h2 : v2 ≠ [])
    (hmin : listMin v1 = listMin v2) (hmax : listMax v1 = listMax v2) :
    draw_nodes v1 vmin vmax = draw_nodes v2 vmin vmax ∧
    draw_links v1 vmin vmax = draw_links v2 vmin vmax := by
  unfold draw_nodes draw_links
  rw [hmin, hmax]
  simp [h1, h2]

/-- C8, witness: two different orderings of the same data, hence equal min
and max, yield the same domain. -/
theorem C8_domain_pure_witness :
    draw_nodes [-2, 1, 5] none none = draw_nodes [5, -2, 1] none none :=
  (C8_domain_pure [-2, 1, 5] [5, -2, 1] none none (by simp) (by simp)
    (by norm_num [listMin, min_def]) (by norm_num [listMax, max_def])).1

/-! ## plot_basic_elements and the undefined name at base.py line 562 -/

/-- Observable effects of one call to plot_basic_elements, in order of
occurrence. -/
inductive Effect
  | figureCreated
  | elementsDrawn
  | legendDrawn
  | figureSaved
deriving DecidableEq

/-- Runtime failures of the embedded Python code. -/
inductive PyErr
  | nameError (x : String)
deriving DecidableEq

/-- Names resolvable where the arguments of the draw_base_elements call are
evaluated (base.py lines 561-578): the parameters of plot_basic_elements
(lines 407-452), the locals fig and ax possibly bound at line 558, and the
module-level bindings of base.py (imports at lines 6-12 and the functions
the module defines). -/
def pbeScope : List String :=
  ["self", "ax", "draw_nodes", "draw_links", "draw_reservoirs", "draw_tanks",
   "draw_pumps", "draw_valves", "savefig", "save_name", "dpi", "save_format",
   "legend", "base_legend_loc", "font_size", "font_color",
   "legend_title_font_size", "draw_frame", "legend_sig_figs",
   "reservoir_size", "reservoir_color", "reservoir_shape",
   "reservoir_border_color", "reservoir_border_width", "tank_size",
   "tank_color", "tank_shape", "tank_border_color", "tank_border_width",
   "valve_size", "valve_color", "valve_shape", "valve_border_color",
   "valve_border_width", "pump_color", "pump_width", "pump_line_style",
   "pump_arrows", "base_node_color", "base_node_size", "base_link_color",
   "base_link_width", "base_link_line_style", "base_link_arrows",
   "fig",
   "np", "nxp", "plt", "mpl", "Line2D", "make_axes_locatable", "save_fig",
   "normalize_parameter", "draw_base_elements", "plot_basic_elements",
   "draw_legend", "draw_color_bar", "draw_label"]

/-- Control flow of plot_basic_elements (base.py lines 552-594): disable
draw_pumps when the model has none (553-554), create a figure when no axis
was given (556-559), then evaluate the arguments of the draw_base_elements
call (561-578) - among them the bare identifier drareservoirs, which is
looked up in scope - and only afterwards draw the elements, optionally the
legend (580-591) and optionally save the figure (592-594). The result is the
ordered effect trace together with the terminal error, if any. -/
def plot_basic_elements (pumpsEmpty axGiven legendArg savefigArg : Bool) :
    List Effect × Option PyErr :=
  let _draw_pumps : Bool := if pumpsEmpty then false else true
  let eff0 : List Effect := if axGiven then [] else [Effect.figureCreated]
  if "drareservoirs" ∈ pbeScope then
    (eff0 ++ [Effect.elementsDrawn]
      ++ (if legendArg then [Effect.legendDrawn] else [])
      ++ (if savefigArg then [Effect.figureSaved] else []), none)
  else
    (eff0, some (PyErr.nameError "drareservoirs"))

/-- C2: every call to plot_basic_elements terminates with a NameError on the
identifier drareservoirs, and its effect trace contains no element drawing,
no legend creation and no figure save. -/
theorem C2_plot_basic_elements_name_error
    (pumpsEmpty axGiven legendArg savefigArg : Bool) :
    (plot_basic_elements pumpsEmpty axGiven legendArg savefigArg).2 =
      some (PyErr.nameError "drareservoirs") ∧
    Effect.elementsDrawn ∉
      (plot_basic_elements pumpsEmpty axGiven legendArg savefigArg).1 ∧
    Effect.legendDrawn ∉
      (plot_basic_elements pumpsEmpty axGiven legendArg savefigArg).1 ∧
    Effect.figureSaved ∉
      (plot_basic_elements pumpsEmpty axGiven legendArg savefigArg).1 := by
  have hscope : "drareservoirs" ∉ pbeScope := by decide
  refine ⟨?_, ?_, ?_, ?_⟩ <;>
    cases axGiven <;> simp [plot_basic_elements, hscope]

/-! ## Continuous-mode visual scaling (normalize_parameter) -/

/-- Modelled from the spec: normalize_parameter is imported at base.py line
12 from viswaternet.utils, whose source is not under src. Continuous-mode
scaling (spec section 4.2): linearly rescale each value into
[minOut, maxOut] using the observed [min, max] of the series as the source
range; when min equals max every output is the midpoint
(minOut + maxOut) / 2. Input order is preserved. -/
def normalize_parameter (values : List ℚ) (minOut maxOut : ℚ) : List ℚ :=
  let mn := listMin values
  let mx := listMax values
  if mn = mx then
    values.map (fun _ => (minOut + maxOut) / 2)
  else
    values.map (fun v => minOut + (v - mn) * (maxOut - minOut) / (mx - mn))

theorem zip_self_map (l : List ℚ) (f : ℚ → ℚ) :
    l.zip (l.map f) = l.map fun v => (v, f v) := by
  induction l with
  | nil => rfl
  | cons a t ih => simp [ih]

/-- C6, counterexample: on the constant series [3, 3] scaled into [0, 10],
the element carrying the observed maximum value 3 is mapped to the midpoint
5, not to maxOut = 10 as the claim requires of every non-empty series. -/
theorem C6_counterexample :
    listMax [3, 3] = 3 ∧
    normalize_parameter [3, 3] 0 10 = [5, 5] ∧
    (5 : ℚ) ≠ 10 := by
  refine ⟨?_, ?_, ?_⟩ <;>
    norm_num [normalize_parameter, listMin, listMax, min_def, max_def]

/-- C6 (amended): for every non-empty value series and target range with
minOut less than or equal to maxOut, every scaled output lies in
[minOut, maxOut] inclusive; and whenever the series is not constant, each
element carrying the observed maximum value is mapped to maxOut and each
element carrying the observed minimum value is mapped to minOut (for a
constant series every output is the midpoint instead). -/
theorem C6_continuous_scaling (values : List ℚ) (minOut maxOut : ℚ)
    (hne : values ≠ []) (hrange : minOut ≤ maxOut) :
    (∀ out ∈ normalize_parameter values minOut maxOut,
        minOut ≤ out ∧ out ≤ maxOut) ∧
    (listMin values < listMax values →
      ∀ p ∈ values.zip (normalize_parameter values minOut maxOut),
        (p.1 = listMax values → p.2 = maxOut) ∧
        (p.1 = listMin values → p.2 = minOut)) := by
  have _ := hne
  constructor
  · intro out hout
    by_cases hconst : listMin values = listMax values
    · rw [normalize_parameter, if_pos hconst] at hout
      rcases List.mem_map.mp hout with ⟨v, _, hv⟩
      constructor <;> [skip; skip] <;> rw [← hv] <;> linarith
    · rw [normalize_parameter, if_neg hconst] at hout
      rcases List.mem_map.mp hout with ⟨v, hvmem, hv⟩
      have hlt : listMin values < listMax values :=
        lt_of_le_of_ne (listMin_le_of_mem (listMax_mem hne)) hconst
      have hv1 : listMin values ≤ v := listMin_le_of_mem hvmem
      have hv2 : v ≤ listMax values := le_listMax_of_mem hvmem
      have hden : (0 : ℚ) < listMax values - listMin values := by linarith
      have ht0 : (0 : ℚ) ≤ (v - listMin values) / (listMax values - listMin values) :=
        div_nonneg (by linarith) (le_of_lt hden)
      have ht1 : (v - listMin values) / (listMax values - listMin values) ≤ 1 :=
        (div_le_one hden).mpr (by linarith)
      rw [← hv, mul_div_right_comm]
      constructor
      · nlinarith
      · nlinarith
  · intro hlt p hp
    have hconst : ¬ listMin values = listMax values := ne_of_lt hlt
    have hzip : values.zip (normalize_parameter values minOut maxOut) =
        values.map (fun v => (v, minOut +
          (v - listMin values) * (maxOut - minOut) /
            (listMax values - listMin values))) := by
      rw [normalize_parameter, if_neg hconst]
      exact zip_self_map values _
    rw [hzip] at hp
    rcases List.mem_map.mp hp with ⟨v, _, hv⟩
    have hden : listMax values - listMin values ≠ 0 := by
      intro h0
      exact hconst (by linarith)
    constructor
    · intro hmax
      rw [← hv] at hmax ⊢
      simp only at hmax ⊢
      rw [hmax]
      field_simp
    · intro hmin
      rw [← hv] at hmin ⊢
      simp only at hmin ⊢
      rw [hmin]
      simp

/-- C6, witness: the amended theorem applied to the series [1, 2, 5] scaled
into [0, 8], at the output 0 of its first element. -/
theorem C6_continuous_scaling_witness : (0 : ℚ) ≤ 0 ∧ (0 : ℚ) ≤ 8 := by
  have hmem : (0 : ℚ) ∈ normalize_parameter [1, 2, 5] 0 8 := by
    norm_num [normalize_parameter, listMin, listMax, min_def, max_def]
  exact (C6_continuous_scaling [1, 2, 5] 0 8 (by simp) (by norm_num)).1 0 hmem

/-- C7: for every value series whose observed minimum equals its observed
maximum, continuous-mode scaling returns the exact midpoint
(minOut + maxOut) / 2 for every element. -/
theorem C7_constant_series_midpoint (values : List ℚ) (minOut maxOut : ℚ)
    (h : listMin values = listMax values) :
    ∀ out ∈ normalize_parameter values minOut maxOut,
      out = (minOut + maxOut) / 2 := by
  intro out hout
  rw [normalize_parameter, if_pos h] at hout
  rcases List.mem_map.mp hout with ⟨v, _, hv⟩
  exact hv.symm

/-- C7, witness: the constant series [3, 3] scaled into [0, 10] sends its
first output, 5, to the midpoint. -/
theorem C7_constant_series_midpoint_witness : (5 : ℚ) = (0 + 10) / 2 :=
  C7_constant_series_midpoint [3, 3] 0 10
    (by norm_num [listMin, listMax, min_def, max_def]) 5
    (by norm_num [normalize_parameter, listMin, listMax, min_def, max_def])

/-! ## Interval partitioning (bin_parameter) -/

/-- Modelled from the spec: bin_parameter is called at
src/Examples/meanstd.py line 18 but its definition is not under src.
Membership of a value in interval i of the equal-width binning of spec
section 4.1: interval i spans [mn + i*w, mn + (i+1)*w]; a value exactly on a
boundary belongs to the lower-numbered interval, so interval 0 is closed on
both ends and every later interval is open below and closed above. -/
def InInterval (mn w : ℚ) (i : ℕ) (v : ℚ) : Prop :=
  if i = 0 then mn ≤ v ∧ v ≤ mn + w
  else mn + i * w < v ∧ v ≤ mn + (i + 1) * w

instance instDecInInterval (mn w : ℚ) (i : ℕ) (v : ℚ) :
    Decidable (InInterval mn w i v) := by
  unfold InInterval
  infer_instance

/-- Modelled from the spec: bin_parameter computes k contiguous equal-width
sub-ranges spanning [min(values), max(values)] and assigns every element
index to the sub-range containing its value (spec section 4.1). Interval i
holds the indices of the elements whose value lies in it; the element lists
keep input order. -/
def bin_parameter (values : List ℚ) (k : ℕ) : List (List ℕ) :=
  let mn := listMin values
  let w := (listMax values - mn) / k
  (List.range k).map (fun i =>
    (List.range values.length).filter
      (fun j => decide (InInterval mn w i (values.getD j 0))))

theorem exists_interval (mn w : ℚ) (_hw : 0 ≤ w) (k : ℕ) (hk : 1 ≤ k) (v : ℚ)
    (h1 : mn ≤ v) (h2 : v ≤ mn + k * w) :
    ∃ i, i < k ∧ InInterval mn w i v := by
  induction k, hk using Nat.le_induction with
  | base =>
    refine ⟨0, Nat.one_pos, ?_⟩
    unfold InInterval
    rw [if_pos rfl]
    constructor
    · exact h1
    · have : ((1 : ℕ) : ℚ) * w = w := by push_cast; ring
      linarith [h2, this]
  | succ k hk ih =>
    by_cases hcase : v ≤ mn + k * w
    · rcases ih hcase with ⟨i, hi, hmem⟩
      exact ⟨i, Nat.lt_succ_of_lt hi, hmem⟩
    · refine ⟨k, Nat.lt_succ_self k, ?_⟩
      unfold InInterval
      have hk0 : k ≠ 0 := by omega
      rw [if_neg hk0]
      push_neg at hcase
      constructor
      · exact hcase
      · push_cast at h2 ⊢
        linarith

theorem interval_unique (mn w : ℚ) (hw : 0 ≤ w) {i j : ℕ} {v : ℚ}
    (hij : i < j) (hi : InInterval mn w i v) (hj : InInterval mn w j v) :
    False := by
  have hj0 : j ≠ 0 := by omega
  unfold InInterval at hi hj
  rw [if_neg hj0] at hj
  have hjlow : mn + j * w < v := hj.1
  by_cases hi0 : i = 0
  · rw [if_pos hi0] at hi
    have h1j : (1 : ℚ) ≤ (j : ℚ) := by exact_mod_cast hj0.bot_lt
    have : w ≤ (j : ℚ) * w := le_mul_of_one_le_left hw h1j
    linarith [hi.2]
  · rw [if_neg hi0] at hi
    have hle : ((i : ℚ) + 1) ≤ (j : ℚ) := by exact_mod_cast hij
    have : ((i : ℚ) + 1) * w ≤ (j : ℚ) * w :=
      mul_le_mul_of_nonneg_right hle hw
    linarith [hi.2]

theorem bin_parameter_getD (values : List ℚ) (k : ℕ) (i : ℕ) (hi : i < k) :
    (bin_parameter values k).getD i [] =
      (List.range values.length).filter
        (fun j => decide (InInterval (listMin values)
          ((listMax values - listMin values) / k) i (values.getD j 0))) := by
  unfold bin_parameter
  rw [List.getD_eq_getElem _ _ (by simpa using hi)]
  simp

/-- C4: for every non-empty value series and interval count k of at least 1,
the spec-modelled binning is total and disjoint: every element index of the
series lies in exactly one of the k interval lists produced by
bin_parameter. -/
theorem C4_partition_total_disjoint (values : List ℚ) (k : ℕ)
    (hk : 1 ≤ k) (hne : values ≠ []) :
    (bin_parameter values k).length = k ∧
    ∀ j < values.length,
      ∃! i : ℕ, i < k ∧ j ∈ (bin_parameter values k).getD i [] := by
  have hlen : (bin_parameter values k).length = k := by
    unfold bin_parameter; simp
  refine ⟨hlen, ?_⟩
  intro j hj
  set mn := listMin values with hmn
  set mx := listMax values with hmx
  set w := (mx - mn) / k with hwdef
  have hk0 : (k : ℚ) ≠ 0 := by exact_mod_cast Nat.one_le_iff_ne_zero.mp hk
  have hv : values.getD j 0 ∈ values := by
    rw [List.getD_eq_getElem _ _ hj]
    exact List.getElem_mem hj
  have hminmax : mn ≤ mx := listMin_le_listMax hne
  have hw : 0 ≤ w := by
    rw [hwdef]
    apply div_nonneg (by linarith)
    exact_mod_cast Nat.zero_le k
  have htop : mn + k * w = mx := by
    rw [hwdef]
    field_simp
  have hmem : ∀ i, i < k →
      (j ∈ (bin_parameter values k).getD i [] ↔
        InInterval mn w i (values.getD j 0)) := by
    intro i hik
    rw [bin_parameter_getD values k i hik]
    simp [List.mem_filter, List.mem_range, hj]
  rcases exists_interval mn w hw k hk (values.getD j 0)
      (listMin_le_of_mem hv) (by rw [htop]; exact le_listMax_of_mem hv)
    with ⟨i, hik, hini⟩
  refine ⟨i, ⟨hik, (hmem i hik).mpr hini⟩, ?_⟩
  intro i2 ⟨hik2, hjmem2⟩
  have hini2 : InInterval mn w i2 (values.getD j 0) := (hmem i2 hik2).mp hjmem2
  rcases lt_trichotomy i2 i with h | h | h
  · exact absurd (interval_unique mn w hw h hini2 hini) id
  · exact h
  · exact absurd (interval_unique mn w hw h hini hini2) id

/-- C4, witness: the partition of the spec example, elements with values
[1, 2, 3, 4, 10] into k = 5 equal-width bins: index 0 (value 1) lies in
exactly one interval. -/
theorem C4_partition_total_disjoint_witness :
    ∃! i : ℕ, i < 5 ∧ 0 ∈ (bin_parameter [1, 2, 3, 4, 10] 5).getD i [] :=
  (C4_partition_total_disjoint [1, 2, 3, 4, 10] 5 (by norm_num)
    (by simp)).2 0 (by simp)

/-! ## Element-size legend synthesis (draw_legend, node_size branch) -/

/-- Evenly spaced rational samples, mirroring np.linspace(a, b, n): for n of
at least 2, n points from a to b inclusive with step (b - a) / (n - 1); for
n = 1 the single point a; for n = 0 the empty list. -/
def linspace (a b : ℚ) (n : ℕ) : List ℚ :=
  if n = 1 then [a]
  else (List.range n).map (fun i : ℕ => a + (i : ℚ) * ((b - a) / ((n : ℚ) - 1)))

/-- One handle of the element-size legend: the size attribute value it
stands for, its label, and the markersize given to the Line2D handle. -/
structure SizeLegendEntry where
  size : ℚ
  label : String
  markersize : ℝ

/-- Element-size legend synthesis of draw_legend (base.py lines 747-766,
node_size branch): marker_sizes = np.linspace(min(node_size),
max(node_size), element_size_intervals), zipped with the caller labels, and
each handle receives markersize = np.sqrt(size). -/
noncomputable def size_legend_handles (node_size : List ℚ) (n : ℕ)
    (labels : List String) : List SizeLegendEntry :=
  let min_size := listMin node_size
  let max_size := listMax node_size
  let marker_sizes := linspace min_size max_size n
  (marker_sizes.zip labels).map
    (fun p => ⟨p.1, p.2, Real.sqrt (p.1 : ℝ)⟩)

/-- Modelled from the spec: a plotted marker for size attribute s has area
s (the points-squared size convention of the plotting toolkit), so legend
markers match plotted markers exactly when the square of their rendered
dimension equals s. -/
def plotted_marker_area (s : ℚ) : ℝ := (s : ℝ)

theorem linspace_length (a b : ℚ) (n : ℕ) : (linspace a b n).length = n := by
  unfold linspace
  split
  · simp [*]
  · simp

theorem linspace_sorted (a b : ℚ) (n : ℕ) (hab : a ≤ b) :
    List.Sorted (· ≤ ·) (linspace a b n) := by
  rcases Nat.lt_or_ge n 2 with h2 | h2
  · interval_cases n <;> simp [linspace]
  · unfold linspace
    rw [if_neg (by omega)]
    have hn1 : (1 : ℚ) ≤ (n : ℚ) - 1 := by
      have : (2 : ℚ) ≤ (n : ℚ) := by exact_mod_cast h2
      linarith
    have hs : 0 ≤ (b - a) / ((n : ℚ) - 1) :=
      div_nonneg (by linarith) (by linarith)
    refine List.Pairwise.map _ ?_ (List.pairwise_lt_range n)
    intro i j hij
    have : (i : ℚ) ≤ (j : ℚ) := by exact_mod_cast Nat.le_of_lt hij
    have := mul_le_mul_of_nonneg_right this hs
    linarith

/-- C9, counterexample: with element_size_intervals = 2 but only one label,
the zip at base.py line 754 truncates the legend to one handle, so the
sample sizes are [4] and not the two evenly spaced values [4, 9] the claim
requires. -/
theorem C9_counterexample :
    (size_legend_handles [4, 9] 2 ["a"]).map SizeLegendEntry.size = [4] ∧
    linspace (listMin [4, 9]) (listMax [4, 9]) 2 = [4, 9] ∧
    ([4] : List ℚ) ≠ [4, 9] := by
  refine ⟨?_, ?_, by simp⟩ <;>
    norm_num [size_legend_handles, linspace, listMin, listMax, min_def,
      max_def, List.range_succ]

/-- C9 (amended): when draw_legend is given node_size as a list together
with an interval count n (element_size_intervals) and at least n labels, the
sample sizes of the element-size legend are exactly the n evenly spaced
values from min(node_size) to max(node_size) (numpy linspace), in ascending
order, regardless of which sizes actually occur per interval; with fewer
labels the zip truncates the samples to the number of labels. -/
theorem C9_legend_linspace_sizes (node_size : List ℚ) (n : ℕ)
    (labels : List String) (hne : node_size ≠ []) (hlab : n ≤ labels.length) :
    (size_legend_handles node_size n labels).map SizeLegendEntry.size =
      linspace (listMin node_size) (listMax node_size) n ∧
    List.Sorted (· ≤ ·)
      ((size_legend_handles node_size n labels).map SizeLegendEntry.size) := by
  have hmap : (size_legend_handles node_size n labels).map SizeLegendEntry.size =
      linspace (listMin node_size) (listMax node_size) n := by
    unfold size_legend_handles
    rw [List.map_map]
    have : (SizeLegendEntry.size ∘ fun p : ℚ × String =>
        (⟨p.1, p.2, Real.sqrt (p.1 : ℝ)⟩ : SizeLegendEntry)) = Prod.fst := by
      funext p
      rfl
    rw [this]
    exact List.map_fst_zip _ _ (by rw [linspace_length]; exact hlab)
  refine ⟨hmap, ?_⟩
  rw [hmap]
  exact linspace_sorted _ _ n (listMin_le_listMax hne)

/-- C9, witness: node sizes [100, 400] with 4 intervals and 4 labels give
the samples [100, 200, 300, 400]. -/
theorem C9_legend_linspace_sizes_witness :
    (size_legend_handles [100, 400] 4 ["a", "b", "c", "d"]).map
      SizeLegendEntry.size =
      linspace (listMin [100, 400]) (listMax [100, 400]) 4 :=
  (C9_legend_linspace_sizes [100, 400] 4 ["a", "b", "c", "d"]
    (by simp) (by simp)).1

/-- C5: every handle of the element-size legend renders with dimension
sqrt(size): its markersize is the square root of the size attribute it
stands for, hence (for nonnegative sizes) the square of the rendered legend
dimension equals the plotted marker area for the same attribute value. -/
theorem C5_legend_sqrt_sizes (node_size : List ℚ) (n : ℕ)
    (labels : List String) (e : SizeLegendEntry)
    (he : e ∈ size_legend_handles node_size n labels) (hpos : 0 ≤ e.size) :
    e.markersize = Real.sqrt (e.size : ℝ) ∧
    e.markersize ^ 2 = plotted_marker_area e.size ∧
    0 ≤ e.markersize := by
  have h1 : e.markersize = Real.sqrt (e.size : ℝ) := by
    unfold size_legend_handles at he
    rcases List.mem_map.mp he with ⟨p, _, hp⟩
    rw [← hp]
  refine ⟨h1, ?_, ?_⟩
  · rw [h1, plotted_marker_area, Real.sq_sqrt (by exact_mod_cast hpos)]
  · rw [h1]
    exact Real.sqrt_nonneg _

/-- C5, witness: the first handle of the legend for node sizes [4, 9] with
two intervals stands for size 4 and its squared markersize is the plotted
marker area 4. -/
theorem C5_legend_sqrt_sizes_witness :
    ((size_legend_handles [4, 9] 2 ["a", "b"]).getD 0
        ⟨0, "", 0⟩).markersize ^ 2 =
      plotted_marker_area ((size_legend_handles [4, 9] 2 ["a", "b"]).getD 0
        ⟨0, "", 0⟩).size := by
  have hlen : (size_legend_handles [4, 9] 2 ["a", "b"]).length = 2 := by
    unfold size_legend_handles
    simp [linspace]
  have hmem : (size_legend_handles [4, 9] 2 ["a", "b"]).getD 0 ⟨0, "", 0⟩ ∈
      size_legend_handles [4, 9] 2 ["a", "b"] := by
    rw [List.getD_eq_getElem _ _ (by rw [hlen]; norm_num)]
    exact List.getElem_mem _
  have hsize : ((size_legend_handles [4, 9] 2 ["a", "b"]).getD 0
      ⟨0, "", 0⟩).size = 4 := by
    unfold size_legend_handles
    norm_num [linspace, listMin, listMax, min_def, max_def, List.range_succ]
  exact (C5_legend_sqrt_sizes [4, 9] 2 ["a", "b"] _ hmem
    (by rw [hsize]; norm_num)).2.1

/-! ## draw_label and the temporary label nodes -/

/-- Python networkx add_node on a graph modelled by its node list: a no-op
on the node set when the node already exists, otherwise the node is
appended. -/
def pyAddNode (g : List String) (x : String) : List String :=
  if x ∈ g then g else g ++ [x]

/-- Python dict item assignment on an association list: replace the value
when the key exists, otherwise append the pair. -/
def dictSet (d : List (String × ℚ × ℚ)) (k : String) (v : ℚ × ℚ) :
    List (String × ℚ × ℚ) :=
  if d.any (fun p => decide (p.1 = k)) then
    d.map (fun p => if p.1 = k then (k, v) else p)
  else d ++ [(k, v)]

/-- Python dict pop with a default: remove the entry with the given key if
present. -/
def dictPop (d : List (String × ℚ × ℚ)) (k : String) :
    List (String × ℚ × ℚ) :=
  d.filter (fun p => decide (p.1 ≠ k))

/-- The part of the model state draw_label touches: the node list of
model[G] and the association list behind model[pos_dict]. -/
structure LabelState where
  g : List String
  posDict : List (String × ℚ × ℚ)
deriving DecidableEq

/-- Processing of one (label, node, xCoord, yCoord) tuple by draw_label
(base.py lines 853-870): with arrows enabled and label different from its
node, the label is added to the graph (line 859), its position is stored in
pos_dict (lines 860-862), the arrow edge is drawn, then the label node is
removed (line 868) and its pos_dict entry popped (line 869); with label
equal to node, or arrows disabled, the model state is untouched. The
coords function gives the network coordinates of an existing node
(model[wn].get_node(node).coordinates). -/
def draw_label_step (coords : String → ℚ × ℚ) (drawArrow : Bool)
    (st : LabelState) (item : String × String × ℚ × ℚ) : LabelState :=
  let label := item.1
  let node := item.2.1
  let x := item.2.2.1
  let y := item.2.2.2
  if drawArrow then
    if label = node then st
    else
      let g1 := pyAddNode st.g label
      let d1 := dictSet st.posDict label
        ((coords node).1 + x, (coords node).2 + y)
      let g2 := g1.erase label
      let d2 := dictPop d1 label
      ⟨g2, d2⟩
  else st

/-- The loop of draw_label over the supplied node list (base.py lines
852-900): the tuples are processed left to right, threading the model
state. -/
def draw_label (coords : String → ℚ × ℚ) (drawArrow : Bool)
    (items : List (String × String × ℚ × ℚ)) (st : LabelState) : LabelState :=
  items.foldl (draw_label_step coords drawArrow) st

/-- C10, counterexample: when a label coincides with an existing node of the
graph (here label A attached to node B, with A already a node), the cleanup
at base.py lines 868-869 removes the pre-existing node A and its position
entry, so the call returns with the graph and position dictionary changed. -/
theorem C10_counterexample :
    (draw_label (fun _ => (0, 0)) true [("A", "B", 0, 0)]
      ⟨["A", "B"], [("A", (0, 0)), ("B", (0, 0))]⟩).g = ["B"] ∧
    (["B"] : List String) ≠ ["A", "B"] := by
  constructor
  · simp [draw_label, draw_label_step, pyAddNode, dictSet, dictPop,
      List.foldl, List.erase]
  · simp

theorem draw_label_step_fixed (coords : String → ℚ × ℚ)
    (st : LabelState) (item : String × String × ℚ × ℚ)
    (h : item.1 ≠ item.2.1 →
      item.1 ∉ st.g ∧ ∀ p ∈ st.posDict, p.1 ≠ item.1) :
    draw_label_step coords true st item = st := by
  unfold draw_label_step
  by_cases heq : item.1 = item.2.1
  · simp [heq]
  · rcases h heq with ⟨hg, hd⟩
    have hg2 : (pyAddNode st.g item.1).erase item.1 = st.g := by
      unfold pyAddNode
      rw [if_neg hg, List.erase_append_right _ hg]
      simp
    have hfil : st.posDict.filter (fun p => decide (p.1 ≠ item.1)) =
        st.posDict := by
      rw [List.filter_eq_self]
      intro a ha
      simpa using hd a ha
    have hany : st.posDict.any (fun p => decide (p.1 = item.1)) = false := by
      rw [List.any_eq_false]
      intro p hp
      simpa using hd p hp
    have hd2 : ∀ v, dictPop (dictSet st.posDict item.1 v) item.1 =
        st.posDict := by
      intro v
      unfold dictSet dictPop
      rw [hany]
      simp only [Bool.false_eq_true, if_false]
      rw [List.filter_append, hfil]
      simp
    simp [heq, hg2, hd2]

/-- C10 (amended): for every call to draw_label with a node list supplied
and arrows enabled, provided no label distinct from its paired node already
names a node of the graph or a key of the position dictionary, the model
graph and position dictionary are unchanged when the call returns: each
temporarily added label node is removed again before the next label is
processed. -/
theorem C10_draw_label_frame (coords : String → ℚ × ℚ)
    (items : List (String × String × ℚ × ℚ)) (st : LabelState)
    (h : ∀ it ∈ items, it.1 ≠ it.2.1 →
      it.1 ∉ st.g ∧ ∀ p ∈ st.posDict, p.1 ≠ it.1) :
    draw_label coords true items st = st := by
  induction items with
  | nil => rfl
  | cons it rest ih =>
    unfold draw_label at ih ⊢
    rw [List.foldl_cons,
      draw_label_step_fixed coords st it (h it (List.mem_cons_self it rest))]
    exact ih (fun it2 h2 => h it2 (List.mem_cons_of_mem it h2))

/-- C10, witness: a fresh label L attached to node B leaves the model state
untouched. -/
theorem C10_draw_label_frame_witness :
    draw_label (fun _ => (0, 0)) true [("L", "B", 1, 2)]
      ⟨["B"], [("B", (0, 0))]⟩ = ⟨["B"], [("B", (0, 0))]⟩ :=
  C10_draw_label_frame (fun _ => (0, 0)) [("L", "B", 1, 2)]
    ⟨["B"], [("B", (0, 0))]⟩ (by simp)

end Visnet
